import Mathlib

/-!
Verification development for the TakeoutDates tool (`src/main.cpp`).

The C++ program walks a directory tree, reads Google-Photos sidecar metadata
JSON files, and either lists (CSV) or mutates (timestamps, macOS Finder tags)
the media files each sidecar describes.  This file gives a shallow embedding
of the program: JSON values, the nlohmann-json access primitives the code
uses, the string/path helpers of `std::filesystem`, the CSV encoder, the
per-file processor `processFile`, the timestamp driver `setFileTimes`, the
argument parser and the run loop of `main`.  C++ exceptions that the source
does not catch (field access on a missing key, `std::stol` on a non-numeric
string, `fs::equivalent` on a nonexistent path) are modelled explicitly as
`CppError` values that abort processing, since in the program they escape
`processFile` and terminate the process via `std::terminate`.

Filesystem facts (existence, equivalence), platform call outcomes
(`open`, `utimensat`, `setCreationTime`) and parse success are inputs to the
model; the mutation of modification/birth times is explicit state.
Formatted-time rendering of rows (`formatTime`) is kept abstract: a CSV row
is represented by its path, its two epoch values and its already-encoded
people field, which determine the printed line.
-/

/-- A C++ exception that the source program never catches on the paths we
model: nlohmann `type_error` (wrong-typed JSON access), `std::invalid_argument`
(from `std::stol`), and `std::filesystem::filesystem_error`
(from `fs::equivalent` when an argument does not exist). -/
inductive CppError where
  | typeError
  | invalidArgument
  | filesystemError
deriving DecidableEq, Repr

/-- JSON values as parsed by nlohmann::json. -/
inductive Json where
  | null
  | str (s : String)
  | num (n : Int)
  | bool (b : Bool)
  | arr (elems : List Json)
  | obj (fields : List (String × Json))

/-- Field lookup on an object, first match. -/
def jsonLookup (fields : List (String × Json)) (k : String) : Option Json :=
  match fields with
  | [] => none
  | (k', v) :: rest => if k' = k then some v else jsonLookup rest k

/-- Model of non-const `json::operator[]` with a string key: on an object it
returns the field (inserting and returning `null` when the key is absent);
on `null` it converts the value to an object and returns the inserted `null`;
on any other kind it throws `json::type_error`. -/
def jsonIndex (j : Json) (k : String) : Except CppError Json :=
  match j with
  | .obj fields => .ok ((jsonLookup fields k).getD .null)
  | .null => .ok .null
  | _ => .error .typeError

/-- Model of `json::contains`: true only on an object that has the key. -/
def jsonContains (j : Json) (k : String) : Bool :=
  match j with
  | .obj fields => (jsonLookup fields k).isSome
  | _ => false

/-- Value of `json::operator[]` in the places where the source guards it
with `contains`, so indexing cannot throw. -/
def jsonGetD (j : Json) (k : String) : Json :=
  match j with
  | .obj fields => (jsonLookup fields k).getD .null
  | _ => .null

/-- Model of `json::get<std::string>()`: throws `type_error` unless the value
is a string. -/
def jsonGetString (j : Json) : Except CppError String :=
  match j with
  | .str s => .ok s
  | _ => .error .typeError

/-- Characters treated as whitespace by `std::stol` (C `isspace`). -/
def isCSpace (c : Char) : Bool :=
  c == ' ' || c == '\t' || c == '\n' || c == '\x0b' || c == '\x0c' || c == '\r'

/-- Numeric value of a digit run. -/
def digitsVal (ds : List Char) : Nat :=
  ds.foldl (fun a c => a * 10 + (c.toNat - '0'.toNat)) 0

/-- Model of `std::stol` in base 10: skip whitespace, optional sign, then a
nonempty digit run (further characters are ignored); with no digits it throws
`std::invalid_argument`.  Values are unbounded integers: the timestamps the
program handles are far below the `long` range, so `out_of_range` is not
modelled. -/
def cppStol (s : String) : Except CppError Int :=
  let cs := s.data.dropWhile isCSpace
  let signAndRest : Bool × List Char :=
    match cs with
    | '-' :: r => (true, r)
    | '+' :: r => (false, r)
    | _ => (false, cs)
  let ds := signAndRest.2.takeWhile Char.isDigit
  if ds.isEmpty then .error .invalidArgument
  else .ok (if signAndRest.1 then -(digitsVal ds : Int) else (digitsVal ds : Int))

/-- Lines 230-231 of `main.cpp`:
`std::stol(j["photoTakenTime"]["timestamp"].get<std::string>())` and the same
for `creationTime`, evaluated in source order.  Any thrown exception is
returned as an error; in the program these two lines sit outside the
`try`/`catch`, so such an error escapes `processFile`. -/
def extractTimes (j : Json) : Except CppError (Int × Int) := do
  let a ← jsonIndex j "photoTakenTime"
  let b ← jsonIndex a "timestamp"
  let s1 ← jsonGetString b
  let photoTaken ← cppStol s1
  let c ← jsonIndex j "creationTime"
  let d ← jsonIndex c "timestamp"
  let s2 ← jsonGetString d
  let creation ← cppStol s2
  return (photoTaken, creation)

/-- Lines 234-248 of `main.cpp`: the `people` array, keeping each entry's
`name` field when present and a string; all accesses are guarded by
`contains`/`is_array`/`is_string`, so this part cannot throw. -/
def extractPeople (j : Json) : List String :=
  if jsonContains j "people" then
    match jsonGetD j "people" with
    | .arr persons =>
      persons.filterMap fun p =>
        if jsonContains p "name" then
          match jsonGetD p "name" with
          | .str s => some s
          | _ => none
        else none
    | _ => []
  else []

/-- First index (in characters) at which `pat` occurs in `l`, like
`std::string::find`. -/
def substrPosAux (pat : List Char) : List Char → Option Nat
  | [] => if pat.isEmpty then some 0 else none
  | c :: rest =>
    if pat.isPrefixOf (c :: rest) then some 0
    else (substrPosAux pat rest).map (· + 1)

/-- Model of `std::string::find(pat)`: index of the first occurrence. -/
def substrPos (s pat : String) : Option Nat :=
  substrPosAux pat.data s.data

/-- Model of `std::string::substr(0, n)`. -/
def strTake (s : String) (n : Nat) : String :=
  ⟨s.data.take n⟩

/-- Index of the last `.` in a filename. -/
def lastDotIdx (cs : List Char) : Option Nat :=
  (cs.reverse.indexOf? '.').map fun k => cs.length - 1 - k

/-- Model of `std::filesystem::path::stem()` on a filename: the filename
with its extension removed; `.`/`..` and a leading-dot-only name are their
own stem. -/
def pathStem (name : String) : String :=
  if name = "." ∨ name = ".." then name
  else
    match lastDotIdx name.data with
    | none => name
    | some 0 => name
    | some i => ⟨name.data.take i⟩

/-- Model of `std::filesystem::path::extension()` on a filename. -/
def pathExtension (name : String) : String :=
  if name = "." ∨ name = ".." then ""
  else
    match lastDotIdx name.data with
    | none => ""
    | some 0 => ""
    | some i => ⟨name.data.drop i⟩

/-- Model of `fs::path::operator/` for the relative names the program
builds. -/
def pjoin (dir name : String) : String :=
  dir ++ "/" ++ name

/-- Characters that force CSV quoting in `escapeCSV`. -/
def needsQuote (c : Char) : Bool :=
  c == ',' || c == '"' || c == '\n'

/-- Doubling of embedded quotes inside an escaped CSV field. -/
def escQuotes : List Char → List Char
  | [] => []
  | c :: rest =>
    if c = '"' then '"' :: '"' :: escQuotes rest else c :: escQuotes rest

/-- Lines 47-63 of `main.cpp`: return the input unchanged when it holds no
comma, quote or newline; otherwise wrap it in quotes, doubling embedded
quotes. -/
def escapeCSV (input : String) : String :=
  if input.data.any needsQuote then
    ⟨'"' :: (escQuotes input.data ++ ['"'])⟩
  else input

/-- Lines 71-81 of `main.cpp`: join the CSV-escaped items with the separator,
then escape the joined string once more (the source's final
`return escapeCSV(result)`). -/
def joinCSV (items : List String) (separator : String) : String :=
  escapeCSV (String.intercalate separator (items.map escapeCSV))

/-- Filesystem facts the program queries: `fs::exists` on a path, and
`fs::equivalent` on a pair of paths (consulted by the code only after both
existence checks, see `lowerCompanionRes`).  `setFileTimes` changes no file's
existence, so these are fixed for a run. -/
structure FileSys where
  present : String → Bool
  equiv : String → String → Bool

/-- Platform facts: whether the build is an `__APPLE__` build (the only
modelled platform with a mutable birth time and with the Finder-tag modes
compiled in), and the per-path outcomes of the platform calls made by
`setFileTimes`. -/
structure Platform where
  isApple : Bool
  openOk : String → Bool
  utimeOk : String → Bool
  birthOk : String → Bool

/-- Mutable per-path timestamp state: access, modification and birth time. -/
@[ext]
structure TimeState where
  atime : String → Option Int
  mtime : String → Option Int
  btime : String → Option Int

/-- Pointwise update of one path's stored time. -/
def updateFn (m : String → Option Int) (p : String) (v : Int) :
    String → Option Int :=
  fun q => if q = p then some v else m q

/-- Lines 109-166 of `main.cpp` (POSIX branch): open the file for writing
(failure returns `false` with nothing changed), call `utimensat` with the
access time omitted (`UTIME_OMIT`) and the modification time set to
`creationTime` (failure returns `false`), and on an `__APPLE__` build
additionally call `setCreationTime(path, photoTakenTime)` to set the birth
time (failure returns `false`, with the modification time already set).
Returns the new state and the function's `bool` result. -/
def setFileTimes (pl : Platform) (filePath : String)
    (photoTakenTime creationTime : Int) (ts : TimeState) : TimeState × Bool :=
  if !pl.openOk filePath then (ts, false)
  else if !pl.utimeOk filePath then (ts, false)
  else
    let ts1 : TimeState :=
      { ts with mtime := updateFn ts.mtime filePath creationTime }
    if pl.isApple then
      if pl.birthOk filePath then
        ({ ts1 with btime := updateFn ts1.btime filePath photoTakenTime }, true)
      else (ts1, false)
    else (ts1, true)

/-- The command-line flag state accumulated by `main` (lines 402-412). -/
structure Flags where
  listOnly : Bool
  setDates : Bool
  listTags : Bool
  assignPeopleTags : Bool
  assignAllPeopleTags : Bool
  removeAllTags : Bool
  removeNamedTags : Bool
  peopleTagsToAssign : List String
  tagsToRemove : List String
deriving DecidableEq, Repr

/-- All flags off, no tag lists: the state before argument parsing. -/
def defaultFlags : Flags :=
  ⟨false, false, false, false, false, false, false, [], []⟩

/-- Flag state of a plain `--list` invocation. -/
def listFlags : Flags := { defaultFlags with listOnly := true }

/-- Flag state of a plain `--set-file-dates` invocation. -/
def setDatesFlags : Flags := { defaultFlags with setDates := true }

/-- Flag state of a plain `--list-tags` invocation. -/
def listTagsFlags : Flags := { defaultFlags with listTags := true }

/-- The branch of `processFile`'s dispatch chain (lines 250-383) that an
invocation's flags select: the conditions are tested in this fixed source
order, and the four tag branches exist only on an `__APPLE__` build.
`--list-tags` is not part of this chain (its accumulation happens before the
chain, for every record). -/
inductive Mode where
  | list
  | setDates
  | assignPeople
  | assignAll
  | removeAll
  | removeNamed
  | noMode
deriving DecidableEq, Repr

/-- Which branch of the dispatch chain runs, per the source's
`if`/`else if` order. -/
def appliedMode (pl : Platform) (fl : Flags) : Mode :=
  if fl.listOnly then .list
  else if fl.setDates then .setDates
  else if pl.isApple && fl.assignPeopleTags then .assignPeople
  else if pl.isApple && fl.assignAllPeopleTags then .assignAll
  else if pl.isApple && fl.removeAllTags then .removeAll
  else if pl.isApple && fl.removeNamedTags then .removeNamed
  else .noMode

/-- One candidate file yielded by the directory walk: where it is, whether
`std::ifstream` can open it, and its parsed content (`none` when
`jsonFile >> j` throws, i.e. the bytes are not valid JSON). -/
structure Entry where
  parentDir : String
  fileName : String
  canOpen : Bool
  content : Option Json

/-- The long metadata-sidecar suffix. -/
def longSuffix : String := ".supplemental-metadata.json"

/-- The short metadata-sidecar suffix. -/
def shortSuffix : String := ".suppl.json"

/-- Lines 204-218 of `main.cpp`: strip the first recognized suffix occurrence
(long form checked first) from the filename; `none` means "not a recognized
metadata file". -/
def baseFileNameOf (jsonFileName : String) : Option String :=
  match substrPos jsonFileName longSuffix with
  | some p => some (strTake jsonFileName p)
  | none =>
    match substrPos jsonFileName shortSuffix with
    | some p => some (strTake jsonFileName p)
    | none => none

/-- The uppercase companion path `parentDir / (primaryStem + ".MP4")`. -/
def mp4Path (parentDir primaryStem : String) : String :=
  pjoin parentDir (primaryStem ++ ".MP4")

/-- `parentDir / (primaryStem + ".MP4.supplemental-metadata.json")`. -/
def mp4JsonPath (parentDir primaryStem : String) : String :=
  pjoin parentDir (primaryStem ++ ".MP4.supplemental-metadata.json")

/-- `parentDir / (primaryStem + ".MP4.suppl.json")`. -/
def mp4SupplJsonPath (parentDir primaryStem : String) : String :=
  pjoin parentDir (primaryStem ++ ".MP4.suppl.json")

/-- The lowercase companion path `parentDir / (primaryStem + ".mp4")`. -/
def mp4LowerPath (parentDir primaryStem : String) : String :=
  pjoin parentDir (primaryStem ++ ".mp4")

/-- `parentDir / (primaryStem + ".mp4.supplemental-metadata.json")`. -/
def mp4LowerJsonPath (parentDir primaryStem : String) : String :=
  pjoin parentDir (primaryStem ++ ".mp4.supplemental-metadata.json")

/-- `parentDir / (primaryStem + ".mp4.suppl.json")`. -/
def mp4LowerSupplJsonPath (parentDir primaryStem : String) : String :=
  pjoin parentDir (primaryStem ++ ".mp4.suppl.json")

/-- The recurring uppercase-companion test (e.g. line 275):
`fs::exists(mp4Path) && !fs::exists(mp4JsonPath) && !fs::exists(mp4SupplJsonPath)`. -/
def upperCompanionOk (fs : FileSys) (parentDir primaryStem : String) : Bool :=
  fs.present (mp4Path parentDir primaryStem)
    && !fs.present (mp4JsonPath parentDir primaryStem)
    && !fs.present (mp4SupplJsonPath parentDir primaryStem)

/-- The first three conjuncts of the lowercase-companion test (e.g. line 283). -/
def lowerChecksOk (fs : FileSys) (parentDir primaryStem : String) : Bool :=
  fs.present (mp4LowerPath parentDir primaryStem)
    && !fs.present (mp4LowerJsonPath parentDir primaryStem)
    && !fs.present (mp4LowerSupplJsonPath parentDir primaryStem)

/-- Outcome of the lowercase-companion condition (e.g. line 283): when the
first three existence checks pass, the code evaluates
`!fs::equivalent(mp4LowerPath, mp4Path)`; `fs::equivalent` throws
`filesystem_error` when either argument does not exist — the lowercase path
exists at that point, so it throws exactly when the uppercase path is
absent, and the exception is uncaught. -/
inductive LowerRes where
  | included
  | excluded
  | crash
deriving DecidableEq, Repr

/-- Evaluate the full lowercase-companion condition. -/
def lowerCompanionRes (fs : FileSys) (parentDir primaryStem : String) :
    LowerRes :=
  if lowerChecksOk fs parentDir primaryStem then
    if !fs.present (mp4Path parentDir primaryStem) then .crash
    else if fs.equiv (mp4LowerPath parentDir primaryStem)
        (mp4Path parentDir primaryStem) then .excluded
    else .included
  else .excluded

/-- The ordered targets a mutating branch acts on (primary, then the
uppercase companion when its test passes, then the lowercase companion when
its test passes), paired with `true` when the lowercase condition's
`fs::equivalent` call throws — in that case the first two targets have
already been acted on. -/
def mutationTargets (fs : FileSys) (parentDir primaryStem primaryPath : String) :
    List String × Bool :=
  let base := primaryPath ::
    (if upperCompanionOk fs parentDir primaryStem
      then [mp4Path parentDir primaryStem] else [])
  match lowerCompanionRes fs parentDir primaryStem with
  | .crash => (base, true)
  | .included => (base ++ [mp4LowerPath parentDir primaryStem], false)
  | .excluded => (base, false)

/-- One CSV data row of `--list` mode (lines 252-266): the target path, the
two epoch values handed to `formatTime`, and the already-encoded people
field `joinCSV(peopleNames, ";")`; these determine the printed line
`escapeCSV(path) + "," + escapeCSV(formatTime(taken)) + "," +
escapeCSV(formatTime(created)) + "," + people`. -/
structure Row where
  path : String
  taken : Int
  created : Int
  people : String
deriving DecidableEq, Repr

/-- One invocation of `setFileTimes`. -/
structure TimeCall where
  path : String
  photoTaken : Int
  creation : Int
deriving DecidableEq, Repr

/-- One invocation of a Finder-tag primitive (`__APPLE__` builds). -/
inductive TagCall where
  | assign (path : String) (tags : List String)
  | removeAll (path : String)
  | removeNamed (path : String) (tags : List String)
deriving DecidableEq, Repr

/-- A diagnostic `processFile` itself writes to `std::cerr`. -/
inductive ErrMsg where
  | parseError (path : String)
  | missingPrimary (path : String)
deriving DecidableEq, Repr

/-- How one call of `processFile` ends.  `crashed` records an exception that
escapes the function: the process is terminated by `std::terminate`, so the
caller's traversal does not continue. -/
inductive POutcome where
  | notOpened
  | parseFailed
  | notMetadata
  | missingPrimary
  | completed
  | crashed (e : CppError)
deriving DecidableEq, Repr

/-- Everything one call of `processFile` does: its outcome, the diagnostics
it prints, the CSV rows it prints, the `setFileTimes` and tag-primitive
calls it makes (in order), and the names it inserts into the `--list-tags`
accumulator. -/
structure PFOut where
  outcome : POutcome
  errMsgs : List ErrMsg
  rows : List Row
  timeCalls : List TimeCall
  tagCalls : List TagCall
  tagInserts : List String
deriving Repr

/-- Lines 184-384 of `main.cpp`: open the file (silent return on failure),
parse it (logged return on failure), strip the sidecar suffix (silent return
when unrecognized), require the primary file unless `--list-tags` (logged
return), read the two timestamps (an exception here escapes), collect the
people names (inserting them into the accumulator when `--list-tags`), then
run the selected dispatch branch. -/
def processFile (fs : FileSys) (pl : Platform) (fl : Flags) (e : Entry) :
    PFOut :=
  if !e.canOpen then ⟨.notOpened, [], [], [], [], []⟩
  else
    match e.content with
    | none =>
      ⟨.parseFailed, [.parseError (pjoin e.parentDir e.fileName)], [], [], [], []⟩
    | some j =>
      match baseFileNameOf e.fileName with
      | none => ⟨.notMetadata, [], [], [], [], []⟩
      | some baseFileName =>
        let parentDir := e.parentDir
        let primaryPath := pjoin parentDir baseFileName
        if !fs.present primaryPath && !fl.listTags then
          ⟨.missingPrimary, [.missingPrimary primaryPath], [], [], [], []⟩
        else
          let primaryStem := pathStem baseFileName
          match extractTimes j with
          | .error ex => ⟨.crashed ex, [], [], [], [], []⟩
          | .ok (photoTakenTime, creationTime) =>
            let peopleNames := extractPeople j
            let inserts := if fl.listTags then peopleNames else []
            match appliedMode pl fl with
            | .list =>
              let mkRow := fun p =>
                Row.mk p photoTakenTime creationTime (joinCSV peopleNames ";")
              let rows := mkRow primaryPath ::
                (if upperCompanionOk fs parentDir primaryStem
                  then [mkRow (mp4Path parentDir primaryStem)] else [])
              ⟨.completed, [], rows, [], [], inserts⟩
            | .setDates =>
              let tc := mutationTargets fs parentDir primaryStem primaryPath
              ⟨if tc.2 then .crashed .filesystemError else .completed, [], [],
                tc.1.map fun p => ⟨p, photoTakenTime, creationTime⟩, [], inserts⟩
            | .assignPeople =>
              let tagsToApply :=
                fl.peopleTagsToAssign.filter fun t => peopleNames.contains t
              if tagsToApply.isEmpty then ⟨.completed, [], [], [], [], inserts⟩
              else
                let tc := mutationTargets fs parentDir primaryStem primaryPath
                ⟨if tc.2 then .crashed .filesystemError else .completed, [], [],
                  [], tc.1.map fun p => .assign p tagsToApply, inserts⟩
            | .assignAll =>
              if peopleNames.isEmpty then ⟨.completed, [], [], [], [], inserts⟩
              else
                let tc := mutationTargets fs parentDir primaryStem primaryPath
                ⟨if tc.2 then .crashed .filesystemError else .completed, [], [],
                  [], tc.1.map fun p => .assign p peopleNames, inserts⟩
            | .removeAll =>
              let tc := mutationTargets fs parentDir primaryStem primaryPath
              ⟨if tc.2 then .crashed .filesystemError else .completed, [], [],
                [], tc.1.map .removeAll, inserts⟩
            | .removeNamed =>
              let tc := mutationTargets fs parentDir primaryStem primaryPath
              ⟨if tc.2 then .crashed .filesystemError else .completed, [], [],
                [], tc.1.map fun p => .removeNamed p fl.tagsToRemove, inserts⟩
            | .noMode => ⟨.completed, [], [], [], [], inserts⟩

/-- The filter of `main`'s traversal loop (lines 485-494): extension is
`.json` and the filename contains one of the two sidecar suffixes. -/
def isMetaEntry (e : Entry) : Bool :=
  pathExtension e.fileName == ".json"
    && ((substrPos e.fileName longSuffix).isSome
      || (substrPos e.fileName shortSuffix).isSome)

/-- Apply one recorded `setFileTimes` call to the time state (the `bool`
result is discarded, as in lines 270/277/285 of the source). -/
def timeStep (pl : Platform) (ts : TimeState) (c : TimeCall) : TimeState :=
  (setFileTimes pl c.path c.photoTaken c.creation ts).1

/-- Apply a sequence of recorded `setFileTimes` calls in order. -/
def applyCalls (pl : Platform) (calls : List TimeCall) (ts : TimeState) :
    TimeState :=
  calls.foldl (timeStep pl) ts

/-- Strict order on characters by code point. -/
def charLtb (a b : Char) : Bool := Nat.blt a.toNat b.toNat

/-- Lexicographic strict order on character lists. -/
def charListLtb : List Char → List Char → Bool
  | _, [] => false
  | [], _ :: _ => true
  | a :: as, b :: bs =>
    if charLtb a b then true
    else if charLtb b a then false
    else charListLtb as bs

/-- The comparator of `std::set<std::string>`: `std::string::operator<`, i.e.
lexicographic byte order, which on UTF-8 data coincides with lexicographic
code-point order. -/
def strLtb (a b : String) : Bool := charListLtb a.data b.data

/-- The comparator as a relation, for sortedness statements. -/
def strLt (a b : String) : Prop := strLtb a b = true

/-- Ordered insertion into a duplicate-free sorted list: the model of
`std::set<std::string>::insert` with the set listed in iteration order. -/
def setInsert (x : String) : List String → List String
  | [] => [x]
  | y :: ys =>
    if strLtb x y then x :: y :: ys
    else if x = y then y :: ys
    else y :: setInsert x ys

/-- Insert a run of names (source order) into the accumulator. -/
def insertAll (names : List String) (acc : List String) : List String :=
  names.foldl (fun a n => setInsert n a) acc

/-- State the traversal loop threads across metadata files: the timestamp
state, the `--list-tags` accumulator (`std::set<std::string>` in iteration
order), and the streams of rows, diagnostics and tag-primitive calls. -/
structure RunAcc where
  times : TimeState
  tags : List String
  rows : List Row
  errs : List ErrMsg
  tagOps : List TagCall

/-- Fresh per-process accumulator over a given on-disk timestamp state. -/
def initAcc (ts : TimeState) : RunAcc :=
  ⟨ts, [], [], [], []⟩

/-- Lines 485-495 of `main.cpp`: call `processFile` on every entry passing
the filter.  A `crashed` outcome is an exception escaping `processFile`;
`main` has no handler, so the loop stops there (`std::terminate`) and the
exception is returned alongside the state reached. -/
def runEntries (fs : FileSys) (pl : Platform) (fl : Flags) :
    List Entry → RunAcc → RunAcc × Option CppError
  | [], acc => (acc, none)
  | e :: rest, acc =>
    if isMetaEntry e then
      let out := processFile fs pl fl e
      let acc' : RunAcc :=
        { times := applyCalls pl out.timeCalls acc.times
          tags := insertAll out.tagInserts acc.tags
          rows := acc.rows ++ out.rows
          errs := acc.errs ++ out.errMsgs
          tagOps := acc.tagOps ++ out.tagCalls }
      match out.outcome with
      | .crashed ex => (acc', some ex)
      | _ => runEntries fs pl fl rest acc'
    else runEntries fs pl fl rest acc

/-- Result of argument parsing in `main` (lines 414-472). -/
inductive ParseOut where
  | ok (fl : Flags)
  | help
  | err
deriving DecidableEq, Repr

/-- Split a `;`-delimited tag argument, dropping empty pieces, as the
`std::getline` loops at lines 440-444/460-464 do. -/
def splitTags (s : String) : List String :=
  (s.splitOn ";").filter fun t => !t.isEmpty

/-- The flag loop of `main` (lines 414-472): `--help` prints usage and exits
0; a value-taking flag missing its value, or an unknown flag, prints usage
and exits 1; everything else sets its flag (appending parsed tag lists) and
continues. -/
def parseLoop (fl : Flags) : List String → ParseOut
  | [] => .ok fl
  | a :: rest =>
    if a = "--help" then .help
    else if a = "--list" then parseLoop { fl with listOnly := true } rest
    else if a = "--set-file-dates" then
      parseLoop { fl with setDates := true } rest
    else if a = "--list-tags" then parseLoop { fl with listTags := true } rest
    else if a = "--assign-people-tags" then
      match rest with
      | v :: rest' =>
        let fl' := { fl with assignPeopleTags := true }
        parseLoop
          { fl' with peopleTagsToAssign := fl.peopleTagsToAssign ++ splitTags v }
          rest'
      | [] => .err
    else if a = "--assign-all-people-tags" then
      parseLoop { fl with assignAllPeopleTags := true } rest
    else if a = "--remove-all-tags" then
      parseLoop { fl with removeAllTags := true } rest
    else if a = "--remove-named-tags" then
      match rest with
      | v :: rest' =>
        let fl' := { fl with removeNamedTags := true }
        parseLoop { fl' with tagsToRemove := fl.tagsToRemove ++ splitTags v } rest'
      | [] => .err
    else .err

/-- Parse the arguments after the folder argument. -/
def parseArgs (args : List String) : ParseOut :=
  parseLoop defaultFlags args

/-- How the process ends: a normal exit code, or termination by an uncaught
exception. -/
inductive ExitResult where
  | code (n : Nat)
  | crashed (e : CppError)
deriving DecidableEq, Repr

/-- Lines 394-507 of `main.cpp`.  `args` is `argv[1..]`; `entries` is the
sequence the recursive directory walk yields under the root folder.  Returns
the exit result, the traversal state reached, and the lines of the final
`--list-tags` report (printed only when traversal completes). -/
def mainRun (args : List String) (fs : FileSys) (pl : Platform)
    (entries : List Entry) (ts : TimeState) :
    ExitResult × RunAcc × List String :=
  match args with
  | [] => (.code 1, initAcc ts, [])
  | folder :: rest =>
    match parseArgs rest with
    | .help => (.code 0, initAcc ts, [])
    | .err => (.code 1, initAcc ts, [])
    | .ok fl =>
      if !fs.present folder then (.code 1, initAcc ts, [])
      else
        let r := runEntries fs pl fl entries (initAcc ts)
        match r.2 with
        | some ex => (.crashed ex, r.1, [])
        | none => (.code 0, r.1, if fl.listTags then r.1.tags else [])

/-- The `setFileTimes` calls a whole traversal makes, in order, cut short at
the first entry whose processing crashes.  `processFile`'s decisions read
only the (run-constant) filesystem, platform and entry data — never the
timestamp state or the accumulator — so this list is determined before any
mutation happens. -/
def runCalls (fs : FileSys) (pl : Platform) (fl : Flags) :
    List Entry → List TimeCall
  | [] => []
  | e :: rest =>
    if isMetaEntry e then
      let out := processFile fs pl fl e
      match out.outcome with
      | .crashed _ => out.timeCalls
      | _ => out.timeCalls ++ runCalls fs pl fl rest
    else runCalls fs pl fl rest

/-- The names a whole traversal inserts into the `--list-tags` accumulator,
in order, cut short at the first crashing entry. -/
def runTagInserts (fs : FileSys) (pl : Platform) (fl : Flags) :
    List Entry → List String
  | [] => []
  | e :: rest =>
    if isMetaEntry e then
      let out := processFile fs pl fl e
      match out.outcome with
      | .crashed _ => out.tagInserts
      | _ => out.tagInserts ++ runTagInserts fs pl fl rest
    else runTagInserts fs pl fl rest

/-- Last-write-wins selection: the value of the last call in the list that
satisfies `P`, later calls taking precedence. -/
def lastWrite (P : TimeCall → Bool) (g : TimeCall → Int) :
    List TimeCall → Option Int
  | [] => none
  | c :: w =>
    match lastWrite P g w with
    | some v => some v
    | none => if P c then some (g c) else none

/-- Whether a `setFileTimes` call on `c` writes the modification time of
path `q`. -/
def mWrites (pl : Platform) (q : String) (c : TimeCall) : Bool :=
  (q == c.path) && pl.openOk c.path && pl.utimeOk c.path

/-- Whether a `setFileTimes` call on `c` writes the birth time of path `q`. -/
def bWrites (pl : Platform) (q : String) (c : TimeCall) : Bool :=
  (q == c.path) && pl.openOk c.path && pl.utimeOk c.path
    && pl.isApple && pl.birthOk c.path

/-- The timestamp state reached by one `--set-file-dates` traversal (a fresh
process: fresh accumulator) starting from on-disk state `ts`. -/
def setDatesRun (fs : FileSys) (pl : Platform) (entries : List Entry)
    (ts : TimeState) : TimeState :=
  (runEntries fs pl setDatesFlags entries (initAcc ts)).1.times

/-- Modelled from the spec: the Association Resolver's output (section 4.2,
steps 2, 5 and 6) — the primary path, then the uppercase companion iff it
exists and neither of its own sidecar paths exists, then the lowercase
companion iff it exists, neither of its own sidecar paths exists, and it
does not denote the same underlying file as an uppercase candidate already
included.  The source has no single resolver; this definition follows the
spec's words and is used to compare the listing mode's rows against the
spec's full target set. -/
def specResolvedTargets (fs : FileSys) (pd base : String) : List String :=
  let stem := pathStem base
  let upperOk := upperCompanionOk fs pd stem
  pjoin pd base
    :: ((if upperOk then [mp4Path pd stem] else [])
      ++ (if lowerChecksOk fs pd stem
            && !(upperOk && fs.equiv (mp4LowerPath pd stem) (mp4Path pd stem))
          then [mp4LowerPath pd stem] else []))

/-- Modelled from the claim's words (C9): the dispatch-mode flag appearing
last in argument order. -/
def lastModeFlagSpec (args : List String) : Option Mode :=
  args.foldl
    (fun acc a =>
      if a = "--list" then some .list
      else if a = "--set-file-dates" then some .setDates
      else if a = "--assign-people-tags" then some .assignPeople
      else if a = "--assign-all-people-tags" then some .assignAll
      else if a = "--remove-all-tags" then some .removeAll
      else if a = "--remove-named-tags" then some .removeNamed
      else acc)
    none

/-- The flag state produced by supplying both `--list` and
`--set-file-dates`. -/
def flagsListSet : Flags := { defaultFlags with listOnly := true, setDates := true }

/-!
Concrete fixtures used by witnesses and counterexamples.
-/

/-- A non-Apple POSIX platform on which every platform call succeeds. -/
def posixAll : Platform := ⟨false, fun _ => true, fun _ => true, fun _ => true⟩

/-- An Apple platform on which every platform call succeeds. -/
def applePosix : Platform := ⟨true, fun _ => true, fun _ => true, fun _ => true⟩

/-- A timestamp state with no recorded times. -/
def tsEmpty : TimeState := ⟨fun _ => none, fun _ => none, fun _ => none⟩

/-- A well-formed metadata document: both timestamps present, no `people`. -/
def goodMeta : Json :=
  .obj [("photoTakenTime", .obj [("timestamp", .str "1000")]),
        ("creationTime", .obj [("timestamp", .str "2000")])]

/-- A metadata document whose `photoTakenTime` field is absent. -/
def noPhotoMeta : Json :=
  .obj [("creationTime", .obj [("timestamp", .str "2000")])]

/-- A metadata document whose `photoTakenTime.timestamp` is non-numeric. -/
def badNumMeta : Json :=
  .obj [("photoTakenTime", .obj [("timestamp", .str "soon")]),
        ("creationTime", .obj [("timestamp", .str "2000")])]

/-- A filesystem holding the scan root and two primary media files. -/
def fsAB : FileSys :=
  ⟨fun p => ["root", "root/a.HEIC", "root/b.HEIC"].contains p, fun _ _ => false⟩

/-- A sidecar for `a.HEIC` whose document lacks `photoTakenTime`. -/
def entryNoPhoto : Entry := ⟨"root", "a.HEIC.suppl.json", true, some noPhotoMeta⟩

/-- A sidecar for `a.HEIC` whose `photoTakenTime.timestamp` is non-numeric. -/
def entryBadNum : Entry := ⟨"root", "a.HEIC.suppl.json", true, some badNumMeta⟩

/-- A well-formed sidecar for `b.HEIC`. -/
def entryGoodB : Entry := ⟨"root", "b.HEIC.suppl.json", true, some goodMeta⟩

/-- A well-formed long-suffix sidecar for `IMG_1.HEIC`. -/
def entryIMG : Entry :=
  ⟨"root", "IMG_1.HEIC.supplemental-metadata.json", true, some goodMeta⟩

/-- A case-insensitive-style filesystem: `IMG_1.MP4` and `IMG_1.mp4` both
report existing, neither has a sidecar, and the two are
filesystem-equivalent. -/
def fsEquivCase : FileSys :=
  ⟨fun p => ["root", "root/IMG_1.HEIC", "root/IMG_1.MP4", "root/IMG_1.mp4"].contains p,
   fun p q => p == "root/IMG_1.mp4" && q == "root/IMG_1.MP4"⟩

/-- A case-sensitive filesystem on which `IMG_1.MP4` and `IMG_1.mp4` are two
distinct existing files, neither with a sidecar. -/
def fsBothCase : FileSys :=
  ⟨fun p => ["root", "root/IMG_1.HEIC", "root/IMG_1.MP4", "root/IMG_1.mp4"].contains p,
   fun _ _ => false⟩

/-- A filesystem where `IMG_1.MP4` exists together with its own long-form
sidecar (the claim's "claimed by its own sidecar" configuration). -/
def fsOwnSidecar : FileSys :=
  ⟨fun p =>
      ["root", "root/IMG_1.HEIC", "root/IMG_1.MP4",
       "root/IMG_1.MP4.supplemental-metadata.json"].contains p,
   fun _ _ => false⟩

/-- An apostrophe, written via its code point. -/
def apos39 : String := String.singleton (Char.ofNat 39)

/-- The associated name of claim C8. -/
def obrienName : String := "O" ++ apos39 ++ "Brien, \"Bob\""

/-- The rendering claim C8 asserts: quoted once, embedded quotes doubled. -/
def obrienClaimed : String := "\"O" ++ apos39 ++ "Brien, \"\"Bob\"\"\""

/-- The rendering the program produces: `joinCSV` escapes the name and then
escapes the joined string a second time. -/
def obrienActual : String :=
  "\"\"\"O" ++ apos39 ++ "Brien, \"\"\"\"Bob\"\"\"\"\"\"\""

/-- A metadata document with one `people` entry bearing claim C8's name. -/
def obrienMeta : Json :=
  .obj [("photoTakenTime", .obj [("timestamp", .str "1000")]),
        ("creationTime", .obj [("timestamp", .str "2000")]),
        ("people", .arr [.obj [("name", .str obrienName)]])]

/-- A sidecar for `a.HEIC` carrying claim C8's name. -/
def entryObrien : Entry := ⟨"root", "a.HEIC.suppl.json", true, some obrienMeta⟩

/-- A metadata document whose `people` are Alice and Bob. -/
def aliceBobMeta : Json :=
  .obj [("photoTakenTime", .obj [("timestamp", .str "1")]),
        ("creationTime", .obj [("timestamp", .str "2")]),
        ("people", .arr [.obj [("name", .str "Alice")], .obj [("name", .str "Bob")]])]

/-- A metadata document whose `people` are Bob and Carol. -/
def bobCarolMeta : Json :=
  .obj [("photoTakenTime", .obj [("timestamp", .str "1")]),
        ("creationTime", .obj [("timestamp", .str "2")]),
        ("people", .arr [.obj [("name", .str "Bob")], .obj [("name", .str "Carol")]])]

/-- A filesystem holding only the scan root: every primary media file is
absent. -/
def fsRootOnly : FileSys := ⟨fun p => p == "root", fun _ _ => false⟩

/-- A sidecar (primary absent) naming Alice and Bob. -/
def entryAliceBob : Entry := ⟨"root", "a.HEIC.suppl.json", true, some aliceBobMeta⟩

/-- A sidecar (primary absent) naming Bob and Carol. -/
def entryBobCarol : Entry := ⟨"root", "b.HEIC.suppl.json", true, some bobCarolMeta⟩

/-- A candidate metadata file that cannot be opened for reading. -/
def lockedEntry : Entry := ⟨"root", "x.HEIC.suppl.json", false, none⟩

/-!
General lemmas: the ordered-set accumulator, and last-write-wins facts about
sequences of `setFileTimes` calls.
-/

theorem charLtb_iff (a b : Char) : charLtb a b = true ↔ a.toNat < b.toNat := by
  simp [charLtb, Nat.blt_eq]

theorem char_eq_of_not_ltb (a b : Char) (h1 : charLtb a b = false)
    (h2 : charLtb b a = false) : a = b := by
  rw [← Bool.not_eq_true, charLtb_iff] at h1 h2
  exact Char.eq_of_val_eq (UInt32.ext (Nat.le_antisymm
    (Nat.le_of_not_lt h2) (Nat.le_of_not_lt h1)))

theorem charListLtb_irrefl (as : List Char) : charListLtb as as = false := by
  induction as with
  | nil => rfl
  | cons a as ih =>
    have ha : charLtb a a = false := by
      rw [← Bool.not_eq_true, charLtb_iff]
      exact Nat.lt_irrefl _
    simp [charListLtb, ha, ih]

theorem charListLtb_trans (as : List Char) :
    ∀ bs cs, charListLtb as bs = true → charListLtb bs cs = true →
      charListLtb as cs = true := by
  induction as with
  | nil =>
    intro bs cs h1 h2
    cases bs with
    | nil => simp [charListLtb] at h1
    | cons b bs' =>
      cases cs with
      | nil => simp [charListLtb] at h2
      | cons c cs' => simp [charListLtb]
  | cons a as ih =>
    intro bs cs h1 h2
    cases bs with
    | nil => simp [charListLtb] at h1
    | cons b bs' =>
      cases cs with
      | nil => simp [charListLtb] at h2
      | cons c cs' =>
        rw [charListLtb] at h1 h2 ⊢
        by_cases hab : charLtb a b = true
        · by_cases hbc : charLtb b c = true
          · have hac : charLtb a c = true := by
              rw [charLtb_iff] at hab hbc ⊢
              omega
            simp [hac]
          · rw [Bool.not_eq_true] at hbc
            have hcb : charLtb c b = false := by
              by_contra hx
              rw [Bool.not_eq_false] at hx
              simp [hbc, hx] at h2
            have hbceq : b = c := char_eq_of_not_ltb b c hbc hcb
            subst hbceq
            simp [hab]
        · rw [Bool.not_eq_true] at hab
          have hba : charLtb b a = false := by
            by_contra hx
            rw [Bool.not_eq_false] at hx
            simp [hab, hx] at h1
          have h1' : charListLtb as bs' = true := by
            simpa [hab, hba] using h1
          have habq : a = b := char_eq_of_not_ltb a b hab hba
          subst habq
          by_cases hac : charLtb a c = true
          · simp [hac]
          · rw [Bool.not_eq_true] at hac
            have hca : charLtb c a = false := by
              by_contra hx
              rw [Bool.not_eq_false] at hx
              simp [hac, hx] at h2
            have h2' : charListLtb bs' cs' = true := by
              simpa [hac, hca] using h2
            simp [hac, hca]
            exact ih bs' cs' h1' h2'

theorem charListLtb_eq_of_not (as : List Char) :
    ∀ bs, charListLtb as bs = false → charListLtb bs as = false → as = bs := by
  induction as with
  | nil =>
    intro bs h1 h2
    cases bs with
    | nil => rfl
    | cons b bs' => simp [charListLtb] at h1
  | cons a as ih =>
    intro bs h1 h2
    cases bs with
    | nil => simp [charListLtb] at h2
    | cons b bs' =>
      rw [charListLtb] at h1 h2
      by_cases hab : charLtb a b = true
      · simp [hab] at h1
      · rw [Bool.not_eq_true] at hab
        by_cases hba : charLtb b a = true
        · simp [hba, hab] at h2
        · rw [Bool.not_eq_true] at hba
          have habq : a = b := char_eq_of_not_ltb a b hab hba
          subst habq
          have h1' : charListLtb as bs' = false := by simpa [hab, hba] using h1
          have h2' : charListLtb bs' as = false := by simpa [hab, hba] using h2
          rw [ih bs' h1' h2']

theorem strLt_trans {a b c : String} (h1 : strLt a b) (h2 : strLt b c) :
    strLt a c :=
  charListLtb_trans a.data b.data c.data h1 h2

theorem strLt_irrefl (a : String) : ¬ strLt a a := by
  simp [strLt, strLtb, charListLtb_irrefl]

theorem strLt_ne {a b : String} (h : strLt a b) : a ≠ b := by
  intro he
  subst he
  exact strLt_irrefl a h

theorem strLt_of_not_of_ne {x y : String} (h1 : strLtb x y = false)
    (h2 : x ≠ y) : strLt y x := by
  by_cases hyx : charListLtb y.data x.data = true
  · exact hyx
  · rw [Bool.not_eq_true] at hyx
    have hd : x.data = y.data := charListLtb_eq_of_not x.data y.data h1 hyx
    exact absurd (String.ext hd) h2

theorem sorted_strLt_nodup {l : List String} (h : l.Sorted strLt) : l.Nodup :=
  h.imp fun hab => strLt_ne hab

/-- Membership after an ordered-set insertion. -/
theorem mem_setInsert (a x : String) (l : List String) :
    a ∈ setInsert x l ↔ a = x ∨ a ∈ l := by
  induction l with
  | nil => simp [setInsert]
  | cons y ys ih =>
    rw [setInsert]
    split_ifs with h1 h2
    · simp only [List.mem_cons]
    · subst h2
      simp only [List.mem_cons]
      tauto
    · simp only [List.mem_cons, ih]
      tauto

/-- Ordered-set insertion preserves strict sortedness. -/
theorem sorted_setInsert (x : String) (l : List String)
    (h : l.Sorted strLt) : (setInsert x l).Sorted strLt := by
  induction l with
  | nil => simp [setInsert]
  | cons y ys ih =>
    rw [List.sorted_cons] at h
    obtain ⟨hy, hys⟩ := h
    rw [setInsert]
    split_ifs with h1 h2
    · rw [List.sorted_cons]
      refine ⟨?_, List.sorted_cons.mpr ⟨hy, hys⟩⟩
      intro b hb
      rcases List.mem_cons.mp hb with rfl | hb
      · exact h1
      · exact strLt_trans h1 (hy b hb)
    · exact List.sorted_cons.mpr ⟨hy, hys⟩
    · have hyx : strLt y x :=
        strLt_of_not_of_ne (Bool.not_eq_true _ ▸ h1) h2
      rw [List.sorted_cons]
      refine ⟨?_, ih hys⟩
      intro b hb
      rcases (mem_setInsert b x ys).mp hb with rfl | hb
      · exact hyx
      · exact hy b hb

/-- Membership after inserting a run of names. -/
theorem mem_insertAll (a : String) (names acc : List String) :
    a ∈ insertAll names acc ↔ a ∈ acc ∨ a ∈ names := by
  induction names generalizing acc with
  | nil => simp [insertAll]
  | cons n ns ih =>
    simp only [insertAll, List.foldl_cons] at ih ⊢
    rw [ih (setInsert n acc), mem_setInsert]
    simp only [List.mem_cons]
    tauto

/-- Inserting a run of names preserves strict sortedness. -/
theorem sorted_insertAll (names acc : List String)
    (h : acc.Sorted strLt) : (insertAll names acc).Sorted strLt := by
  induction names generalizing acc with
  | nil => exact h
  | cons n ns ih =>
    simp only [insertAll, List.foldl_cons] at ih ⊢
    exact ih (setInsert n acc) (sorted_setInsert n acc h)

/-- Inserting runs one after the other. -/
theorem insertAll_append (l₁ l₂ acc : List String) :
    insertAll (l₁ ++ l₂) acc = insertAll l₂ (insertAll l₁ acc) := by
  simp [insertAll, List.foldl_append]

/-- `setFileTimes` never touches the access time. -/
theorem timeStep_atime (pl : Platform) (ts : TimeState) (c : TimeCall) :
    (timeStep pl ts c).atime = ts.atime := by
  cases h1 : pl.openOk c.path <;> cases h2 : pl.utimeOk c.path <;>
    cases h3 : pl.isApple <;> cases h4 : pl.birthOk c.path <;>
    simp [timeStep, setFileTimes, h1, h2, h3, h4]

/-- Pointwise effect of one call on the modification time. -/
theorem timeStep_mtime (pl : Platform) (ts : TimeState) (c : TimeCall)
    (q : String) :
    (timeStep pl ts c).mtime q
      = if mWrites pl q c then some c.creation else ts.mtime q := by
  cases h1 : pl.openOk c.path <;> cases h2 : pl.utimeOk c.path <;>
    cases h3 : pl.isApple <;> cases h4 : pl.birthOk c.path <;>
    by_cases h5 : q = c.path <;>
    simp [timeStep, setFileTimes, mWrites, updateFn, h1, h2, h3, h4, h5]

/-- Pointwise effect of one call on the birth time. -/
theorem timeStep_btime (pl : Platform) (ts : TimeState) (c : TimeCall)
    (q : String) :
    (timeStep pl ts c).btime q
      = if bWrites pl q c then some c.photoTaken else ts.btime q := by
  cases h1 : pl.openOk c.path <;> cases h2 : pl.utimeOk c.path <;>
    cases h3 : pl.isApple <;> cases h4 : pl.birthOk c.path <;>
    by_cases h5 : q = c.path <;>
    simp [timeStep, setFileTimes, bWrites, updateFn, h1, h2, h3, h4, h5]

/-- A run of calls never touches the access time. -/
theorem applyCalls_atime (pl : Platform) (w : List TimeCall) (ts : TimeState) :
    (applyCalls pl w ts).atime = ts.atime := by
  induction w generalizing ts with
  | nil => rfl
  | cons c w ih =>
    simp only [applyCalls, List.foldl_cons] at ih ⊢
    rw [ih, timeStep_atime]

/-- The modification time after a run of calls: the last relevant write
wins, else the original value. -/
theorem applyCalls_mtime (pl : Platform) (w : List TimeCall) (ts : TimeState)
    (q : String) :
    (applyCalls pl w ts).mtime q
      = match lastWrite (mWrites pl q) TimeCall.creation w with
        | some v => some v
        | none => ts.mtime q := by
  induction w generalizing ts with
  | nil => rfl
  | cons c w ih =>
    simp only [applyCalls, List.foldl_cons] at ih ⊢
    rw [ih, lastWrite]
    cases h : lastWrite (mWrites pl q) TimeCall.creation w
    · rw [timeStep_mtime]
      cases hc : mWrites pl q c <;> simp [hc]
    · simp

/-- The birth time after a run of calls: the last relevant write wins, else
the original value. -/
theorem applyCalls_btime (pl : Platform) (w : List TimeCall) (ts : TimeState)
    (q : String) :
    (applyCalls pl w ts).btime q
      = match lastWrite (bWrites pl q) TimeCall.photoTaken w with
        | some v => some v
        | none => ts.btime q := by
  induction w generalizing ts with
  | nil => rfl
  | cons c w ih =>
    simp only [applyCalls, List.foldl_cons] at ih ⊢
    rw [ih, lastWrite]
    cases h : lastWrite (bWrites pl q) TimeCall.photoTaken w
    · rw [timeStep_btime]
      cases hc : bWrites pl q c <;> simp [hc]
    · simp

/-- Replaying the same sequence of `setFileTimes` calls is a no-op: every
call stores values determined by the call itself, so the last write per path
is the same in both passes. -/
theorem applyCalls_idem (pl : Platform) (w : List TimeCall) (ts : TimeState) :
    applyCalls pl w (applyCalls pl w ts) = applyCalls pl w ts := by
  ext q
  · rw [applyCalls_atime, applyCalls_atime]
  · rw [applyCalls_mtime, applyCalls_mtime]
    cases h : lastWrite (mWrites pl q) TimeCall.creation w
    · simp [applyCalls_mtime, h]
    · simp
  · rw [applyCalls_btime, applyCalls_btime]
    cases h : lastWrite (bWrites pl q) TimeCall.photoTaken w
    · simp [applyCalls_btime, h]
    · simp

/-- The timestamp state a traversal reaches is the replay of its
(run-determined) call list over the initial state. -/
theorem run_times (fs : FileSys) (pl : Platform) (fl : Flags)
    (entries : List Entry) (acc : RunAcc) :
    (runEntries fs pl fl entries acc).1.times
      = applyCalls pl (runCalls fs pl fl entries) acc.times := by
  induction entries generalizing acc with
  | nil => rfl
  | cons e rest ih =>
    rw [runEntries, runCalls]
    cases hm : isMetaEntry e
    · simp only [hm, Bool.false_eq_true, if_false]
      exact ih acc
    · simp only [hm, if_true]
      cases ho : (processFile fs pl fl e).outcome <;> simp only [ho] <;>
        first
          | rfl
          | (rw [ih]
             simp [applyCalls, List.foldl_append])

/-- The `--list-tags` accumulator a traversal reaches is the insertion of
its (run-determined) name list into the starting accumulator. -/
theorem run_tags (fs : FileSys) (pl : Platform) (fl : Flags)
    (entries : List Entry) (acc : RunAcc) :
    (runEntries fs pl fl entries acc).1.tags
      = insertAll (runTagInserts fs pl fl entries) acc.tags := by
  induction entries generalizing acc with
  | nil => rfl
  | cons e rest ih =>
    rw [runEntries, runTagInserts]
    cases hm : isMetaEntry e
    · simp only [hm, Bool.false_eq_true, if_false]
      exact ih acc
    · simp only [hm, if_true]
      cases ho : (processFile fs pl fl e).outcome <;> simp only [ho] <;>
        first
          | rfl
          | (rw [ih, insertAll_append])

/-!
Claim theorems.
-/

/-- C4: for every tree, running mutation mode (`--set-file-dates`) twice over
the same tree produces identical on-disk timestamp state after the second run
as after the first.  Each record's targets and the stored values are
determined by the metadata and filesystem facts, which a run does not change,
so the second run repeats exactly the first run's `setFileTimes` calls, and
replaying constant-valued writes is a no-op. -/
theorem c4_set_dates_idempotent (fs : FileSys) (pl : Platform)
    (entries : List Entry) (ts : TimeState) :
    setDatesRun fs pl entries (setDatesRun fs pl entries ts)
      = setDatesRun fs pl entries ts := by
  unfold setDatesRun
  simp only [run_times, initAcc]
  exact applyCalls_idem pl (runCalls fs pl setDatesFlags entries) ts

/-- C5: a successful `setFileTimes` call sets the path's modification time to
`creationTime` (not `photoTakenTime`), leaves the access-time map entirely
untouched, on an Apple build additionally sets the path's birth time to
`photoTakenTime`, and returns `true`; the mutation is confined to the given
path. -/
theorem c5_set_file_times_contract (pl : Platform) (ts : TimeState)
    (path : String) (photoTakenTime creationTime : Int)
    (h1 : pl.openOk path = true) (h2 : pl.utimeOk path = true)
    (h3 : pl.isApple = true → pl.birthOk path = true) :
    (setFileTimes pl path photoTakenTime creationTime ts).2 = true
    ∧ (setFileTimes pl path photoTakenTime creationTime ts).1.atime = ts.atime
    ∧ (setFileTimes pl path photoTakenTime creationTime ts).1.mtime
        = updateFn ts.mtime path creationTime
    ∧ (setFileTimes pl path photoTakenTime creationTime ts).1.btime
        = (if pl.isApple then updateFn ts.btime path photoTakenTime
            else ts.btime) := by
  cases ha : pl.isApple
  · simp [setFileTimes, h1, h2, ha]
  · have hb := h3 ha
    simp [setFileTimes, h1, h2, ha, hb]

/-- C5 witness: the contract at a concrete Apple platform, path, times and
state. -/
theorem c5_witness :
    (setFileTimes applePosix "root/a.HEIC" 1000 2000 tsEmpty).2 = true
    ∧ (setFileTimes applePosix "root/a.HEIC" 1000 2000 tsEmpty).1.atime
        = tsEmpty.atime
    ∧ (setFileTimes applePosix "root/a.HEIC" 1000 2000 tsEmpty).1.mtime
        = updateFn tsEmpty.mtime "root/a.HEIC" 2000
    ∧ (setFileTimes applePosix "root/a.HEIC" 1000 2000 tsEmpty).1.btime
        = (if applePosix.isApple then updateFn tsEmpty.btime "root/a.HEIC" 1000
            else tsEmpty.btime) :=
  c5_set_file_times_contract applePosix tsEmpty "root/a.HEIC" 1000 2000
    rfl rfl (fun _ => rfl)

/-- C7: for every traversal (in particular `--list-tags`), the accumulator
emitted at end of run is sorted in the strict lexical order `strLt` — hence
each distinct name appears exactly once, in ascending lexical order — and is
a permutation of the first-occurrence list of all names accumulated across
the successfully processed metadata files; moreover on the concrete pair of
records with name lists Alice,Bob and Bob,Carol — whose primary media files
do not exist — the `--list-tags` report is exactly Alice, Bob, Carol. -/
theorem c7_list_tags_report :
    (∀ (fs : FileSys) (pl : Platform) (fl : Flags) (entries : List Entry)
        (ts : TimeState),
      ((runEntries fs pl fl entries (initAcc ts)).1.tags).Sorted strLt
      ∧ List.Perm ((runEntries fs pl fl entries (initAcc ts)).1.tags)
          ((runTagInserts fs pl fl entries).dedup))
    ∧ (mainRun ["root", "--list-tags"] fsRootOnly posixAll
        [entryAliceBob, entryBobCarol] tsEmpty).2.2
        = ["Alice", "Bob", "Carol"] := by
  constructor
  · intro fs pl fl entries ts
    rw [run_tags]
    have hs : (insertAll (runTagInserts fs pl fl entries)
        (initAcc ts).tags).Sorted strLt :=
      sorted_insertAll _ _ (by simp [initAcc])
    refine ⟨hs, ?_⟩
    refine (List.perm_ext_iff_of_nodup (sorted_strLt_nodup hs)
      (List.nodup_dedup _)).mpr ?_
    intro a
    rw [mem_insertAll, List.mem_dedup]
    simp [initAcc]
  · decide

/-- C10: a candidate metadata file that cannot be opened is skipped silently:
`processFile` returns at once with no diagnostic, no row, no mutation call
and no accumulator insertion, and the traversal of the remaining entries is
exactly the traversal without that entry. -/
theorem c10_unopenable_silent_skip (fs : FileSys) (pl : Platform) (fl : Flags)
    (e : Entry) (rest : List Entry) (acc : RunAcc)
    (h : e.canOpen = false) :
    (processFile fs pl fl e).outcome = POutcome.notOpened
    ∧ (processFile fs pl fl e).errMsgs = []
    ∧ (processFile fs pl fl e).rows = []
    ∧ (processFile fs pl fl e).timeCalls = []
    ∧ (processFile fs pl fl e).tagCalls = []
    ∧ (processFile fs pl fl e).tagInserts = []
    ∧ runEntries fs pl fl (e :: rest) acc = runEntries fs pl fl rest acc := by
  have hp : processFile fs pl fl e = ⟨.notOpened, [], [], [], [], []⟩ := by
    simp [processFile, h]
  refine ⟨by rw [hp], by rw [hp], by rw [hp], by rw [hp], by rw [hp],
    by rw [hp], ?_⟩
  rw [runEntries]
  cases hm : isMetaEntry e
  · simp [hm]
  · simp only [hm, if_true, hp]
    have hacc : ({ times := applyCalls pl [] acc.times
                   tags := insertAll [] acc.tags
                   rows := acc.rows ++ []
                   errs := acc.errs ++ []
                   tagOps := acc.tagOps ++ [] } : RunAcc) = acc := by
      cases acc
      simp [applyCalls, insertAll]
    rw [hacc]

/-- C10 witness: the silent skip at a concrete unopenable entry. -/
theorem c10_witness :
    (processFile fsAB posixAll listFlags lockedEntry).outcome
        = POutcome.notOpened
    ∧ (processFile fsAB posixAll listFlags lockedEntry).errMsgs = []
    ∧ (processFile fsAB posixAll listFlags lockedEntry).rows = []
    ∧ (processFile fsAB posixAll listFlags lockedEntry).timeCalls = []
    ∧ (processFile fsAB posixAll listFlags lockedEntry).tagCalls = []
    ∧ (processFile fsAB posixAll listFlags lockedEntry).tagInserts = []
    ∧ runEntries fsAB posixAll listFlags [lockedEntry] (initAcc tsEmpty)
        = runEntries fsAB posixAll listFlags [] (initAcc tsEmpty) :=
  c10_unopenable_silent_skip fsAB posixAll listFlags lockedEntry []
    (initAcc tsEmpty) rfl

/-- C8 counterexample: in listing mode, the people field produced for the
single associated name O'Brien, "Bob" is not the claimed
single-escaped rendering: `joinCSV` escapes the name and then escapes the
joined string a second time. -/
theorem c8_counterexample :
    (processFile fsAB posixAll listFlags entryObrien).rows.map Row.people
      ≠ [obrienClaimed] := by decide

/-- C8 amended: `escapeCSV` alone renders the name O'Brien, "Bob" as the
claimed string (quoted once, embedded quotes doubled), but the people field
of a listing-mode row is `joinCSV`, which applies `escapeCSV` once per
element and once more to the joined string, so the field is rendered
double-escaped. -/
theorem c8_amended :
    escapeCSV obrienName = obrienClaimed
    ∧ joinCSV [obrienName] ";" = obrienActual
    ∧ (processFile fsAB posixAll listFlags entryObrien).rows.map Row.people
        = [obrienActual] := by decide

/-- C9 counterexample: with `--list` followed by `--set-file-dates`, the
later mode flag in argument order is `--set-file-dates`, yet the dispatch
applies listing mode — argument order does not determine precedence. -/
theorem c9_counterexample :
    parseArgs ["--list", "--set-file-dates"] = ParseOut.ok flagsListSet
    ∧ lastModeFlagSpec ["--list", "--set-file-dates"] = some Mode.setDates
    ∧ appliedMode posixAll flagsListSet = Mode.list
    ∧ Mode.list ≠ Mode.setDates := by decide

/-- C9 amended: when multiple mode flags are supplied, precedence follows
the dispatch chain's fixed source order, not argument order: both orderings
of `--list` and `--set-file-dates` parse to the same flag state, and on any
platform the branch applied for it is listing mode. -/
theorem c9_amended (pl : Platform) :
    parseArgs ["--list", "--set-file-dates"] = ParseOut.ok flagsListSet
    ∧ parseArgs ["--set-file-dates", "--list"] = ParseOut.ok flagsListSet
    ∧ appliedMode pl flagsListSet = Mode.list :=
  ⟨by decide, by decide, rfl⟩

/-- C1: a metadata file whose `photoTakenTime` field is absent, or whose
timestamp is non-numeric, does not produce a logged skip: the timestamp
read throws an uncaught exception, so `processFile` emits no diagnostic and
performs no mutation, but the exception terminates the process — the
traversal does not continue, and a following valid record is left
unprocessed (its primary's modification time stays unset). -/
theorem c1_missing_timestamp_terminates :
    (processFile fsAB posixAll setDatesFlags entryNoPhoto).outcome
        = POutcome.crashed CppError.typeError
    ∧ (processFile fsAB posixAll setDatesFlags entryNoPhoto).errMsgs = []
    ∧ (processFile fsAB posixAll setDatesFlags entryNoPhoto).timeCalls = []
    ∧ (processFile fsAB posixAll setDatesFlags entryBadNum).outcome
        = POutcome.crashed CppError.invalidArgument
    ∧ (runEntries fsAB posixAll setDatesFlags [entryNoPhoto, entryGoodB]
        (initAcc tsEmpty)).2 = some CppError.typeError
    ∧ (runEntries fsAB posixAll setDatesFlags [entryNoPhoto, entryGoodB]
        (initAcc tsEmpty)).1.times.mtime (pjoin "root" "b.HEIC") = none := by
  decide

/-- C6: the run over a tree containing one valid record and one record with
a missing `photoTakenTime` does not recover: the process is terminated by
the uncaught exception instead of exiting 0 after completing traversal
(while argument errors, a missing folder, a missing folder argument exit 1,
and a traversal that does complete exits 0). -/
theorem c6_crash_is_not_recovered :
    (mainRun ["root", "--set-file-dates"] fsAB posixAll
        [entryGoodB, entryNoPhoto] tsEmpty).1
      = ExitResult.crashed CppError.typeError
    ∧ (mainRun ["root", "--set-file-dates"] fsAB posixAll [entryGoodB]
        tsEmpty).1 = ExitResult.code 0
    ∧ (mainRun ["root", "--frobnicate"] fsAB posixAll [] tsEmpty).1
        = ExitResult.code 1
    ∧ (mainRun ["nowhere"] fsAB posixAll [] tsEmpty).1 = ExitResult.code 1
    ∧ (mainRun [] fsAB posixAll [] tsEmpty).1 = ExitResult.code 1 := by
  decide

/-- Characterization of the mutating branches' target list and of the crash
of the lowercase-companion condition. -/
theorem mutationTargets_spec (fs : FileSys) (pd stem primary : String) :
    (mutationTargets fs pd stem primary).1
      = primary
        :: ((if upperCompanionOk fs pd stem then [mp4Path pd stem] else [])
          ++ (if lowerChecksOk fs pd stem && fs.present (mp4Path pd stem)
                && !fs.equiv (mp4LowerPath pd stem) (mp4Path pd stem)
              then [mp4LowerPath pd stem] else []))
    ∧ ((mutationTargets fs pd stem primary).2 = true
        ↔ lowerChecksOk fs pd stem = true
          ∧ fs.present (mp4Path pd stem) = false) := by
  unfold mutationTargets lowerCompanionRes
  cases hl : lowerChecksOk fs pd stem <;>
    cases hp : fs.present (mp4Path pd stem) <;>
    cases he : fs.equiv (mp4LowerPath pd stem) (mp4Path pd stem) <;>
    simp [hl, hp, he]

/-- Reduction of `processFile` in `--set-file-dates` mode for a readable,
parseable sidecar whose primary exists and whose timestamps extract
successfully. -/
theorem processFile_setDates_eq (fs : FileSys) (pl : Platform) (e : Entry)
    (j : Json) (base : String) (t1 t2 : Int)
    (hOpen : e.canOpen = true) (hContent : e.content = some j)
    (hBase : baseFileNameOf e.fileName = some base)
    (hPrim : fs.present (pjoin e.parentDir base) = true)
    (hTimes : extractTimes j = .ok (t1, t2)) :
    processFile fs pl setDatesFlags e
      = ⟨if (mutationTargets fs e.parentDir (pathStem base)
              (pjoin e.parentDir base)).2
          then .crashed .filesystemError else .completed,
         [], [],
         (mutationTargets fs e.parentDir (pathStem base)
            (pjoin e.parentDir base)).1.map fun p => ⟨p, t1, t2⟩,
         [], []⟩ := by
  simp [processFile, hOpen, hContent, hBase, hPrim, hTimes, appliedMode,
    setDatesFlags, defaultFlags]

/-- C2 counterexample: on a filesystem where `IMG_1.mp4` exists with neither
of its own sidecars, the claimed inclusion condition holds, yet the path is
excluded from the record's target set (the code's extra
filesystem-equivalence guard fires because the lowercase name denotes the
same file as the uppercase candidate). -/
theorem c2_counterexample :
    fsEquivCase.present (mp4LowerPath "root" "IMG_1") = true
    ∧ fsEquivCase.present (mp4LowerJsonPath "root" "IMG_1") = false
    ∧ fsEquivCase.present (mp4LowerSupplJsonPath "root" "IMG_1") = false
    ∧ mp4LowerPath "root" "IMG_1"
        ∉ (processFile fsEquivCase posixAll setDatesFlags
            entryIMG).timeCalls.map TimeCall.path := by decide

/-- C2 amended: in `--set-file-dates` mode, the uppercase companion is in
the target set iff it exists and neither of its own sidecar paths exists;
the lowercase companion is in the target set iff it exists, neither of its
own sidecar paths exists, the uppercase path also exists, and the two are
not filesystem-equivalent — and when the lowercase candidate passes its
three existence checks while the uppercase path is absent, the
`fs::equivalent` query throws and processing of the record crashes after
the earlier targets were already acted on.  The claim's uppercase example
(a companion with its own sidecar is excluded) holds as stated. -/
theorem c2_amended (fs : FileSys) (pl : Platform) (e : Entry)
    (j : Json) (base : String) (t1 t2 : Int)
    (hOpen : e.canOpen = true) (hContent : e.content = some j)
    (hBase : baseFileNameOf e.fileName = some base)
    (hPrim : fs.present (pjoin e.parentDir base) = true)
    (hTimes : extractTimes j = .ok (t1, t2)) :
    (processFile fs pl setDatesFlags e).timeCalls.map TimeCall.path
      = pjoin e.parentDir base
        :: ((if upperCompanionOk fs e.parentDir (pathStem base)
              then [mp4Path e.parentDir (pathStem base)] else [])
          ++ (if lowerChecksOk fs e.parentDir (pathStem base)
                && fs.present (mp4Path e.parentDir (pathStem base))
                && !fs.equiv (mp4LowerPath e.parentDir (pathStem base))
                    (mp4Path e.parentDir (pathStem base))
              then [mp4LowerPath e.parentDir (pathStem base)] else []))
    ∧ ((processFile fs pl setDatesFlags e).outcome
          = POutcome.crashed CppError.filesystemError
        ↔ lowerChecksOk fs e.parentDir (pathStem base) = true
          ∧ fs.present (mp4Path e.parentDir (pathStem base)) = false) := by
  rw [processFile_setDates_eq fs pl e j base t1 t2 hOpen hContent hBase hPrim
    hTimes]
  obtain ⟨h1, h2⟩ :=
    mutationTargets_spec fs e.parentDir (pathStem base) (pjoin e.parentDir base)
  constructor
  · dsimp only
    rw [List.map_map]
    rw [show (TimeCall.path ∘ fun p => TimeCall.mk p t1 t2) = id from rfl,
      List.map_id, h1]
  · dsimp only
    cases hc : (mutationTargets fs e.parentDir (pathStem base)
        (pjoin e.parentDir base)).2 <;> simp [hc, ← h2]

/-- C2 witness: the amended characterization at the claim's own example —
`IMG_1.MP4` exists together with `IMG_1.MP4.supplemental-metadata.json`, so
the target set of `IMG_1.HEIC`'s sidecar is the primary alone. -/
theorem c2_witness :
    (processFile fsOwnSidecar posixAll setDatesFlags entryIMG).timeCalls.map
        TimeCall.path
      = pjoin "root" "IMG_1.HEIC"
        :: ((if upperCompanionOk fsOwnSidecar "root" (pathStem "IMG_1.HEIC")
              then [mp4Path "root" (pathStem "IMG_1.HEIC")] else [])
          ++ (if lowerChecksOk fsOwnSidecar "root" (pathStem "IMG_1.HEIC")
                && fsOwnSidecar.present (mp4Path "root" (pathStem "IMG_1.HEIC"))
                && !fsOwnSidecar.equiv
                    (mp4LowerPath "root" (pathStem "IMG_1.HEIC"))
                    (mp4Path "root" (pathStem "IMG_1.HEIC"))
              then [mp4LowerPath "root" (pathStem "IMG_1.HEIC")] else []))
    ∧ ((processFile fsOwnSidecar posixAll setDatesFlags entryIMG).outcome
          = POutcome.crashed CppError.filesystemError
        ↔ lowerChecksOk fsOwnSidecar "root" (pathStem "IMG_1.HEIC") = true
          ∧ fsOwnSidecar.present (mp4Path "root" (pathStem "IMG_1.HEIC"))
              = false) :=
  c2_amended fsOwnSidecar posixAll entryIMG goodMeta "IMG_1.HEIC" 1000 2000
    rfl rfl (by decide) (by decide) (by rfl)

/-- C3 counterexample: with `IMG_1.MP4` and `IMG_1.mp4` both existing as
distinct files and neither carrying its own sidecar, the lowercase companion
belongs to the Association Resolver's full target set (spec section 4.2 step
6), yet listing mode emits rows only for the primary and the uppercase
companion — the lowercase variant gets no CSV row. -/
theorem c3_counterexample :
    mp4LowerPath "root" "IMG_1"
        ∈ specResolvedTargets fsBothCase "root" "IMG_1.HEIC"
    ∧ (processFile fsBothCase posixAll listFlags entryIMG).rows.map Row.path
        = [pjoin "root" "IMG_1.HEIC", mp4Path "root" "IMG_1"]
    ∧ mp4LowerPath "root" "IMG_1"
        ∉ (processFile fsBothCase posixAll listFlags entryIMG).rows.map
            Row.path := by decide

/-- C3 amended: in listing mode, one CSV row is emitted for the primary
(first) and one for the uppercase companion when its inclusion test passes —
each carrying the record's two epoch values and its semicolon-joined people
field — and no other row: the lowercase companion variant of the mutating
branches is never listed, and listing performs no timestamp mutation. -/
theorem c3_amended (fs : FileSys) (pl : Platform) (e : Entry)
    (j : Json) (base : String) (t1 t2 : Int)
    (hOpen : e.canOpen = true) (hContent : e.content = some j)
    (hBase : baseFileNameOf e.fileName = some base)
    (hPrim : fs.present (pjoin e.parentDir base) = true)
    (hTimes : extractTimes j = .ok (t1, t2)) :
    (processFile fs pl listFlags e).rows
      = Row.mk (pjoin e.parentDir base) t1 t2 (joinCSV (extractPeople j) ";")
          :: (if upperCompanionOk fs e.parentDir (pathStem base)
              then [Row.mk (mp4Path e.parentDir (pathStem base)) t1 t2
                      (joinCSV (extractPeople j) ";")] else [])
    ∧ (processFile fs pl listFlags e).timeCalls = [] := by
  simp [processFile, hOpen, hContent, hBase, hPrim, hTimes, appliedMode,
    listFlags, defaultFlags]

/-- C3 witness: the amended row list at a concrete record with both
companion spellings present (uppercase row emitted, lowercase never). -/
theorem c3_witness :
    (processFile fsBothCase posixAll listFlags entryIMG).rows
      = Row.mk (pjoin "root" "IMG_1.HEIC") 1000 2000
          (joinCSV (extractPeople goodMeta) ";")
          :: (if upperCompanionOk fsBothCase "root" (pathStem "IMG_1.HEIC")
              then [Row.mk (mp4Path "root" (pathStem "IMG_1.HEIC")) 1000 2000
                      (joinCSV (extractPeople goodMeta) ";")] else [])
    ∧ (processFile fsBothCase posixAll listFlags entryIMG).timeCalls = [] :=
  c3_amended fsBothCase posixAll entryIMG goodMeta "IMG_1.HEIC" 1000 2000
    rfl rfl (by decide) (by decide) (by rfl)
